import Mathlib

/-!
Verification development for the Bayesian hyperparameter optimizer
(`optml/bayesian_optimizer/bayesianoptimizer.py`).

The Python source is shallowly embedded below.  Python numbers are modelled
as exact rationals (`ℚ`) for the executable parts of the code, and as real
numbers (`ℝ`) for the parts that call into `scipy.stats.norm` (the
acquisition functions), where the mathematical content of the claims lives.
Python dictionaries are modelled as association lists with Python's
insert/update semantics, and Python exceptions as an `Except` error type.

External collaborators that the source file imports but that are outside
the embedded core (the Gaussian-process regressor, `scipy.optimize.minimize`,
the annealer) appear as explicit functional parameters: the loop logic under
verification treats them as black boxes, exactly as the specification's
section 6 prescribes.
-/

namespace OptML

/-- A Python runtime value as it occurs in parameter vectors: an int,
a float (modelled exactly as a rational), or a string. -/
inductive Value where
  | int : ℤ → Value
  | float : ℚ → Value
  | str : String → Value
deriving DecidableEq, Repr

/-- The kind (Python type) of a `Value`. -/
inductive ValueKind where
  | intKind
  | floatKind
  | strKind
deriving DecidableEq, Repr

def valueKind : Value → ValueKind
  | .int _ => .intKind
  | .float _ => .floatKind
  | .str _ => .strKind

/-- A hyperparameter declaration (`optml.Parameter`): a name, a type tag
(`"continuous"`, `"integer"` or `"categorical"`), numeric bounds for the
numeric types, and the list of allowed values for categorical parameters. -/
structure Param where
  name : String
  param_type : String
  lower : ℚ := 0
  upper : ℚ := 0
  possible_values : List Value := []
deriving DecidableEq, Repr

instance : Inhabited Param := ⟨⟨"", "continuous", 0, 0, []⟩⟩

/-- The Python exceptions that the embedded code can raise. -/
inductive PyErr where
  | missingValue    -- optml.optimizer_base.MissingValueException
  | configConflict  -- the generic `Exception(...)` raised in `fit`
  | typeError
  | indexError
  | valueError
  | nameError
  | keyError
deriving DecidableEq, Repr

instance {ε α : Type} [DecidableEq ε] [DecidableEq α] : DecidableEq (Except ε α) :=
  fun a b =>
    match a, b with
    | .ok x, .ok y =>
        if h : x = y then .isTrue (h ▸ rfl)
        else .isFalse (fun hh => h (Except.ok.inj hh))
    | .error e, .error f =>
        if h : e = f then .isTrue (h ▸ rfl)
        else .isFalse (fun hh => h (Except.error.inj hh))
    | .ok _, .error _ => .isFalse (fun hh => Except.noConfusion hh)
    | .error _, .ok _ => .isFalse (fun hh => Except.noConfusion hh)

/-- A Python dictionary with string keys, modelled as an association list.
Dictionaries built by the embedded code always go through `dictSet`, which
preserves uniqueness of keys exactly as Python does. -/
abbrev PyDict := List (String × Value)

/-- Lookup in a Python dictionary (first matching key; dictionaries built
by `dictSet` have unique keys). -/
def dictGet : PyDict → String → Option Value
  | [], _ => none
  | (k, v) :: d, k' => if k' = k then some v else dictGet d k'

/-- `d[k] = v` with Python semantics: update the value in place if the key
is present, otherwise append the new binding at the end. -/
def dictSet : PyDict → String → Value → PyDict
  | [], k, v => [(k, v)]
  | (k0, v0) :: d, k, v =>
      if k0 = k then (k0, v) :: d else (k0, v0) :: dictSet d k v

/-- Build a Python dictionary from a list of bindings by repeated
assignment (the semantics of a dict comprehension or of a `d[k] = v` loop). -/
def pyDictOfList (l : List (String × Value)) : PyDict :=
  l.foldl (fun d kv => dictSet d kv.1 kv.2) []

/-- `_param_dict_to_arr` (bayesianoptimizer.py lines 324-336):
`[param_dict[hp.name] for hp in self.hyperparams]`.  A missing key is a
Python `KeyError`, modelled by `none`. -/
def param_dict_to_arr (hps : List Param) (d : PyDict) : Option (List Value) :=
  match hps with
  | [] => some []
  | hp :: tl =>
      match dictGet d hp.name, param_dict_to_arr tl d with
      | some v, some rest => some (v :: rest)
      | _, _ => none

/-- `_param_arr_to_dict` (bayesianoptimizer.py lines 338-350):
`{hp.name: p for hp, p in zip(self.hyperparams, param_arr)}`. -/
def param_arr_to_dict (hps : List Param) (param_arr : List Value) : PyDict :=
  pyDictOfList ((hps.map Param.name).zip param_arr)

/-- Python 3 `round` on an exact value: round half to even.  `f` is the
floor of `q` (floor division of numerator by denominator) and
`rem = q.num - f * q.den` its fractional part scaled by the (positive)
denominator, so `q - f < 1/2` is `2 * rem < q.den`. -/
def roundHalfToEven (q : ℚ) : ℤ :=
  let f : ℤ := q.num.fdiv q.den
  let rem : ℤ := q.num - f * q.den
  if 2 * rem < (q.den : ℤ) then f
  else if (q.den : ℤ) < 2 * rem then f + 1
  else if f % 2 = 0 then f else f + 1

/-- Python `str(v)`.  Integer and string formatting is exact; float
formatting is modelled canonically via the rational's representation
(only its string-ness matters to the embedded code). -/
def pyStr : Value → String
  | .int n => toString n
  | .float q => toString q
  | .str s => s

/-- The per-coordinate cast performed on a successful proposal in
`get_next_hyperparameters` (bayesianoptimizer.py lines 310-316):
`int(round(v))` for integer parameters (a `TypeError` on a string),
`str(v)` for categorical parameters, and the identity otherwise. -/
def castParamValue (hp : Param) (v : Value) : Except PyErr Value :=
  if hp.param_type = "integer" then
    match v with
    | .float q => .ok (.int (roundHalfToEven q))
    | .int n => .ok (.int n)
    | .str _ => .error .typeError
  else if hp.param_type = "categorical" then .ok (.str (pyStr v))
  else .ok v

/-- The `new_params` assembly loop of `get_next_hyperparameters`
(lines 309-317) before dictionary construction. -/
def buildParamsList : List (Param × Value) → Except PyErr (List (String × Value))
  | [] => .ok []
  | (hp, v) :: rest =>
      match castParamValue hp v, buildParamsList rest with
      | .ok w, .ok tail => .ok ((hp.name, w) :: tail)
      | .error e, _ => .error e
      | _, .error e => .error e

/-- `new_params = {}` plus the cast loop of lines 309-317: zip the
hyperparameters with the optimizer's result vector (`zip` truncates to the
shorter list, as in Python) and build the result dictionary. -/
def buildParams (hps : List Param) (xs : List Value) : Except PyErr PyDict :=
  (buildParamsList (hps.zip xs)).map pyDictOfList

/-- Result record of one acquisition-maximization call, the dictionary
`{'success': ..., 'x': ...}` returned by the `optimize_*_problem` methods. -/
structure MinimizedResult where
  success : Bool
  x : List Value
deriving DecidableEq, Repr

/-- Modelled from the spec: `cartesian_product` from
`optml.bayesian_optimizer.optimizers` (imported by the source but not part
of it) enumerates "the full combinatorial grid of all possible value
combinations (cartesian product across categorical ParameterSpecs)". -/
def cartesian_product : List (List Value) → List (List Value)
  | [] => [[]]
  | l :: ls => l.flatMap (fun v => (cartesian_product ls).map (fun c => v :: c))

/-- Modelled from the spec: `CategoricalMaximizer.find_max` (imported by the
source but not part of it) must "evaluate acquisition at every grid point
and return the maximizer exactly".  Ties keep the earliest grid point. -/
def find_max (acq : List Value → ℚ) : List (List Value) → Option (List Value)
  | [] => none
  | g :: gs => some (gs.foldl (fun best c => if acq best < acq c then c else best) g)

/-- `optimize_categorical_problem` (bayesianoptimizer.py lines 227-256).
The acquisition function is abstracted as `acq`; the stochastic annealer
(`MixedAnnealer`, external to the source file) is abstracted by its returned
pair: final parameters `annealerParams` and final score `annealerScore`,
where `none` models a NaN score (`np.isnan(result[1])`). -/
def optimize_categorical_problem (hps : List Param) (acq : List Value → ℚ)
    (annealerParams : PyDict) (annealerScore : Option ℚ) : Except PyErr MinimizedResult :=
  let param_grid := hps.map Param.possible_values
  let n_combinations := (cartesian_product param_grid).length
  if n_combinations > 1000 then
    match param_dict_to_arr hps annealerParams with
    | none => .error .keyError
    | some arr => .ok ⟨annealerScore.isSome, arr⟩
  else
    match find_max acq (cartesian_product param_grid) with
    | none => .error .valueError  -- np.argmax over an empty grid
    | some max_vals =>
        match param_dict_to_arr hps (param_arr_to_dict hps max_vals) with
        | none => .error .keyError
        | some arr => .ok ⟨true, arr⟩

/-- Configuration of one `get_next_hyperparameters` call: the constructed
optimizer state (lines 48-62) plus the per-restart inner maximization
(lines 300-305, dispatching on the optimization type) abstracted as
`attemptResult : attempt index → start values → result`.  The fitted
Gaussian process that the real code threads through is part of that
black box. -/
structure GnhConfig where
  hyperparams : List Param
  n_restarts_optimizer : ℕ
  start_vals : Option (List (List Value))
  attemptResult : ℕ → List (List Value) → MinimizedResult

/-- The start-value choice of lines 296-299.  When `start_vals` was given at
construction, `get_default_values_arr()` is used; modelled from the spec
("user-supplied default start vectors") as the deterministic array derived
from the stored `start_vals`.  Otherwise `get_random_values_arr()` draws a
fresh random array, modelled as a stream `rs` indexed by the attempt. -/
def startArrAt (cfg : GnhConfig) (rs : ℕ → List (List Value)) (j : ℕ) :
    List (List Value) :=
  match cfg.start_vals with
  | none => rs j
  | some sv => sv

/-- The observable outcome of `get_next_hyperparameters`: the returned
parameter dictionary, the final `self.success` flag, the final
`self.non_convergence_count`, and whether `warnings.warn` fired (a
non-fatal warning: the call still returns normally). -/
structure GnhOutcome where
  result : PyDict
  success : Bool
  non_convergence_count : ℕ
  warned : Bool
deriving DecidableEq, Repr

/-- The restart loop of `get_next_hyperparameters` (lines 294-322).
`j` is the next attempt index, `fuel` the remaining attempts, `last` the
current value of the Python local `start_vals` (None before the first
iteration).  The `for/else` clause runs once all attempts are exhausted:
with zero total restarts the local `start_vals` was never bound
(`NameError`), and `start_vals[0]` on an empty array is an `IndexError`. -/
def gnhAux (cfg : GnhConfig) (rs : ℕ → List (List Value)) (count : ℕ) :
    ℕ → ℕ → Option (List (List Value)) → Except PyErr GnhOutcome
  | _, 0, last =>
      match last with
      | none => .error .nameError
      | some [] => .error .indexError
      | some (row :: _) =>
          .ok ⟨pyDictOfList ((cfg.hyperparams.map Param.name).zip row),
               false, count + 1, true⟩
  | j, fuel + 1, _ =>
      let sv := startArrAt cfg rs j
      let m := cfg.attemptResult j sv
      if m.success then
        match buildParams cfg.hyperparams m.x with
        | .ok d => .ok ⟨d, true, count, false⟩
        | .error e => .error e
      else gnhAux cfg rs count (j + 1) fuel (some sv)

/-- `get_next_hyperparameters` (bayesianoptimizer.py lines 283-322), with
`count` the entry value of `self.non_convergence_count`. -/
def get_next_hyperparameters (cfg : GnhConfig) (rs : ℕ → List (List Value))
    (count : ℕ) : Except PyErr GnhOutcome :=
  gnhAux cfg rs count 0 cfg.n_restarts_optimizer none

/-- `hp.param_type in ['integer', 'continuous']` (line 384). -/
def isNumericType (hp : Param) : Bool :=
  hp.param_type == "integer" || hp.param_type == "continuous"

/-- NumPy subtraction of a scalar from one object-array cell: numeric cells
subtract, a string cell raises `TypeError`. -/
def valueSub (v : Value) (m : ℚ) : Except PyErr Value :=
  match v with
  | .float q => .ok (.float (q - m))
  | .int n => .ok (.float ((n : ℚ) - m))
  | .str _ => .error .typeError

/-- NumPy broadcasting of `row -= means` for one selected row of
`x[numeric_idxs, :] -= means`: elementwise when the lengths agree,
scalar broadcast when `means` has one entry, `ValueError` otherwise. -/
def rowSubBroadcast (row : List Value) (means : List ℚ) : Except PyErr (List Value) :=
  if means.length = row.length then
    (row.zip means).mapM (fun p => valueSub p.1 p.2)
  else if means.length = 1 then
    row.mapM (fun v => valueSub v (means.headD 0))
  else .error .valueError

/-- `_normalize_params` (bayesianoptimizer.py lines 383-395) under
Python 3 / NumPy semantics.

`self.hyperparams[numeric_idxs]` on line 385 is read charitably as NumPy
fancy indexing (selecting the numeric parameters); `x[numeric_idxs, :]` on
line 386 applies the boolean mask to the ROW axis of `x` (whose rows are
history entries, not parameters), which requires the mask length to equal
the number of rows (`IndexError` otherwise).  On line 394 `ranges` is a
plain Python list built by `ranges.append`, so the expression `ranges > 0`
raises `TypeError` in Python 3 ('>' is not supported between `list` and
`int`); under Python 2 comparison semantics the subsequent subscript
`ranges[np.newaxis, ranges > 0]` indexes the list with a tuple, which is
equally a `TypeError`.  The function therefore can never return normally. -/
def normalize_params (hps : List Param) (x : List (List Value)) :
    Except PyErr (List (List Value)) :=
  let numeric_idxs := hps.map isNumericType
  let means := (hps.filter (fun hp => isNumericType hp)).map
      (fun hp => (hp.upper - hp.lower) / 2)
  if numeric_idxs.length = x.length then
    match (x.zip numeric_idxs).mapM
        (fun p => if p.2 then rowSubBroadcast p.1 means else .ok p.1) with
    | .error e => .error e
    | .ok _ =>
        -- line 394: `x[:, ranges>0] = x[:, ranges>0]/ranges[np.newaxis, ranges>0]`
        .error .typeError
  else .error .indexError

/-- Full configuration of a `fit` run.  `α` is the opaque type of the
training/validation data arrays.  `initValues` models the draw made by
`get_random_values_dict` / `get_default_values_dict` at iteration 0;
`randomStarts i j` the random start array of attempt `j` in iteration `i`;
`attemptResult i j sv` the inner acquisition maximization of that attempt;
`evalScore` the external `_fit_and_score_model` collaborator. -/
structure FitConfig (α : Type) where
  hyperparams : List Param
  n_restarts_optimizer : ℕ
  start_vals : Option (List (List Value))
  normalize : Bool
  initValues : List Value
  randomStarts : ℕ → ℕ → List (List Value)
  attemptResult : ℕ → ℕ → List (List Value) → MinimizedResult
  evalScore : PyDict → α → α → Option ℕ → ℚ

/-- The `GnhConfig` in effect during iteration `i` of `fit`. -/
def gnhConfigAt {α : Type} (cfg : FitConfig α) (i : ℕ) : GnhConfig :=
  ⟨cfg.hyperparams, cfg.n_restarts_optimizer, cfg.start_vals, cfg.attemptResult i⟩

/-- `xs = [self._param_dict_to_arr(params) for score, params in history]`
(line 430); a history entry whose dictionary misses a declared name would
raise `KeyError`. -/
def histToMatrix (hps : List Param) : List (ℚ × PyDict) → Option (List (List Value))
  | [] => some []
  | e :: tl =>
      match param_dict_to_arr hps e.2, histToMatrix hps tl with
      | some a, some rest => some (a :: rest)
      | _, _ => none

/-- One iteration of the `fit` loop (lines 428-445).  Iteration 0 skips the
surrogate and proposes from `initValues`; an iteration `i > 0` rebuilds the
history matrix, optionally normalizes it (`optimizer.fit` itself is the
external Gaussian process and has no modelled effect), asks
`get_next_hyperparameters` for a proposal, then scores it and appends
`(score, proposal)` to the history. -/
def fitStep {α : Type} (cfg : FitConfig α) (Xe Ye : α) (n_folds : Option ℕ)
    (i : ℕ) (hist : List (ℚ × PyDict)) (ncc : ℕ) :
    Except PyErr (List (ℚ × PyDict) × ℕ) :=
  if i = 0 then
    let d := pyDictOfList ((cfg.hyperparams.map Param.name).zip cfg.initValues)
    .ok (hist ++ [(cfg.evalScore d Xe Ye n_folds, d)], ncc)
  else
    match histToMatrix cfg.hyperparams hist with
    | none => .error .keyError
    | some xs =>
        match (if cfg.normalize then normalize_params cfg.hyperparams xs else .ok xs) with
        | .error e => .error e
        | .ok _ =>
            match get_next_hyperparameters (gnhConfigAt cfg i) (cfg.randomStarts i) ncc with
            | .error e => .error e
            | .ok o =>
                .ok (hist ++ [(cfg.evalScore o.result Xe Ye n_folds, o.result)],
                     o.non_convergence_count)

/-- The `for i in range(n_iters)` loop of `fit`, with `i` the next iteration
index and the remaining iteration count as fuel. -/
def fitAux {α : Type} (cfg : FitConfig α) (Xe Ye : α) (n_folds : Option ℕ) :
    ℕ → ℕ → List (ℚ × PyDict) → ℕ → Except PyErr (List (ℚ × PyDict) × ℕ)
  | _, 0, hist, ncc => .ok (hist, ncc)
  | i, r + 1, hist, ncc =>
      match fitStep cfg Xe Ye n_folds i hist ncc with
      | .error e => .error e
      | .ok (h, n) => fitAux cfg Xe Ye n_folds (i + 1) r h n

/-- The argument validation at the top of `fit` (lines 415-421): with both
test arrays absent the training data are used; with exactly one absent a
`MissingValueException` is raised; with both present alongside `n_folds`
the configuration-conflict `Exception` is raised. -/
def validateEval {α : Type} (X_train y_train : α) (X_test y_test : Option α)
    (n_folds : Option ℕ) : Except PyErr (α × α) :=
  match X_test, y_test with
  | none, none => .ok (X_train, y_train)
  | some xt, some yt =>
      if n_folds.isSome then .error .configConflict else .ok (xt, yt)
  | _, _ => .error .missingValue

/-- `fit` (bayesianoptimizer.py lines 397-448): validate the evaluation
configuration, reset `non_convergence_count` to 0, run the loop from an
empty `hyperparam_history`.  The modelled result is the final history and
non-convergence counter (the trailing `get_best_params_and_model` call is
an external lookup over that history). -/
def fit {α : Type} (cfg : FitConfig α) (X_train y_train : α)
    (X_test y_test : Option α) (n_iters : ℕ) (n_folds : Option ℕ) :
    Except PyErr (List (ℚ × PyDict) × ℕ) :=
  match validateEval X_train y_train X_test y_test n_folds with
  | .error e => .error e
  | .ok (xe, ye) => fitAux cfg xe ye n_folds 0 n_iters [] 0

/-- The best score recorded in a history, `max(score for score, params in h)`
valued in `WithBot ℚ` so that the empty history has value `⊥`. -/
def bestSoFar (h : List (ℚ × PyDict)) : WithBot ℚ :=
  h.foldr (fun e acc => max (↑e.1) acc) ⊥

/-- The standard normal density `scipy.stats.norm.pdf`. -/
noncomputable def normPdf (t : ℝ) : ℝ :=
  (Real.sqrt (2 * Real.pi))⁻¹ * Real.exp (-(t ^ 2) / 2)

/-- The standard normal distribution function `scipy.stats.norm.cdf`. -/
noncomputable def normCdf (x : ℝ) : ℝ :=
  ∫ t in Set.Iic x, normPdf t

/-- `upper_confidence_bound` (lines 128-139) at a query point with posterior
mean `mu` and standard deviation `std`: `(mu + 1.96*std)[0]`.  Note that,
unlike the other three acquisition functions, it has no `std == 0` branch. -/
noncomputable def upper_confidence_bound (mu std : ℝ) : ℝ :=
  mu + 1.96 * std

/-- `expected_improvement` (lines 141-158) at posterior `(mu, std)` with
best observed score `current_best` (the maximum over the history, extracted
by the caller). -/
noncomputable def expected_improvement (mu std current_best : ℝ) : ℝ :=
  if std = 0 then 0
  else
    std * (((mu - current_best) / std) * normCdf ((mu - current_best) / std) +
      normPdf ((mu - current_best) / std))

/-- `generalized_expected_improvement` (lines 160-180) with
exploration-control parameter `xi`. -/
noncomputable def generalized_expected_improvement (mu std current_best xi : ℝ) : ℝ :=
  if std = 0 then 0
  else
    (mu - current_best - xi) * normCdf ((mu - current_best - xi) / std) +
      std * normPdf ((mu - current_best - xi) / std)

/-- `probability_of_improvement` (lines 182-198). -/
noncomputable def probability_of_improvement (mu std current_best : ℝ) : ℝ :=
  if std = 0 then 0 else normCdf ((mu - current_best) / std)

/-! ### Dictionary lemmas -/

theorem dictGet_isSome_iff_mem (d : PyDict) (k : String) :
    (dictGet d k).isSome = true ↔ k ∈ d.map Prod.fst := by
  induction d with
  | nil => simp [dictGet]
  | cons p tl ih =>
      obtain ⟨k0, v0⟩ := p
      by_cases h : k = k0 <;> simp [dictGet, h, ih]

theorem dictSet_of_not_mem (d : PyDict) (k : String) (v : Value)
    (h : k ∉ d.map Prod.fst) : dictSet d k v = d ++ [(k, v)] := by
  induction d with
  | nil => simp [dictSet]
  | cons p tl ih =>
      obtain ⟨k0, v0⟩ := p
      simp only [List.map_cons, List.mem_cons, not_or] at h
      have h0 : ¬k0 = k := fun hh => h.1 hh.symm
      simp [dictSet, h0, ih h.2]

theorem foldl_dictSet_eq_append (l : List (String × Value)) :
    ∀ acc : PyDict, (l.map Prod.fst).Nodup →
      (∀ k ∈ l.map Prod.fst, k ∉ acc.map Prod.fst) →
      l.foldl (fun d kv => dictSet d kv.1 kv.2) acc = acc ++ l := by
  induction l with
  | nil => intro acc _ _; simp
  | cons p tl ih =>
      intro acc hnd hdisj
      obtain ⟨k, v⟩ := p
      have h1 : k ∉ acc.map Prod.fst := hdisj k (by simp)
      rw [List.map_cons] at hnd
      obtain ⟨hknotl, hnd'⟩ := List.nodup_cons.mp hnd
      rw [List.foldl_cons]
      show tl.foldl (fun d kv => dictSet d kv.1 kv.2) (dictSet acc k v) = _
      rw [dictSet_of_not_mem acc k v h1]
      rw [ih (acc ++ [(k, v)]) hnd' ?_]
      · simp
      · intro k' hk'
        simp only [List.map_append, List.mem_append, not_or]
        refine ⟨fun hm => hdisj k' (by simp [hk']) hm, ?_⟩
        simp only [List.map_cons, List.map_nil, List.mem_singleton]
        rintro rfl
        exact hknotl hk'

theorem pyDictOfList_eq_self (l : List (String × Value))
    (h : (l.map Prod.fst).Nodup) : pyDictOfList l = l := by
  have := foldl_dictSet_eq_append l [] h (by simp)
  simpa [pyDictOfList] using this

/-! ### Conversion lemmas -/

theorem param_dict_to_arr_cons_ne (hps : List Param) (k : String) (v : Value)
    (d : PyDict) (h : ∀ hp ∈ hps, hp.name ≠ k) :
    param_dict_to_arr hps ((k, v) :: d) = param_dict_to_arr hps d := by
  induction hps with
  | nil => rfl
  | cons hp tl ih =>
      have h1 : hp.name ≠ k := h hp (by simp)
      simp [param_dict_to_arr, dictGet, h1, ih (fun hp' hm => h hp' (by simp [hm]))]

theorem param_dict_to_arr_zip (hps : List Param) (arr : List Value)
    (hnodup : (hps.map Param.name).Nodup) (hlen : arr.length = hps.length) :
    param_dict_to_arr hps ((hps.map Param.name).zip arr) = some arr := by
  induction hps generalizing arr with
  | nil =>
      cases arr with
      | nil => rfl
      | cons v vt => simp at hlen
  | cons hp tl ih =>
      cases arr with
      | nil => simp at hlen
      | cons v vt =>
          have hnotin : hp.name ∉ tl.map Param.name :=
            (List.nodup_cons.mp (by simpa using hnodup)).1
          have hnd' : (tl.map Param.name).Nodup :=
            (List.nodup_cons.mp (by simpa using hnodup)).2
          have hne : ∀ hp' ∈ tl, hp'.name ≠ hp.name := by
            intro hp' hm heq
            exact hnotin (heq ▸ List.mem_map_of_mem Param.name hm)
          have hrec := param_dict_to_arr_cons_ne tl hp.name v
            ((tl.map Param.name).zip vt) hne
          simp [param_dict_to_arr, dictGet, hrec, ih vt hnd' (by simpa using hlen)]

theorem param_dict_to_arr_eq_map (hps : List Param) (d : PyDict)
    (h : ∀ hp ∈ hps, (dictGet d hp.name).isSome) :
    param_dict_to_arr hps d =
      some (hps.map fun hp => (dictGet d hp.name).getD (.str "")) := by
  induction hps with
  | nil => rfl
  | cons hp tl ih =>
      obtain ⟨v, hv⟩ := Option.isSome_iff_exists.mp (h hp (by simp))
      simp [param_dict_to_arr, hv, ih (fun hp' hm => h hp' (by simp [hm]))]

theorem dictGet_name_map (hps : List Param) (g : String → Value) (k : String) :
    dictGet (hps.map fun hp => (hp.name, g hp.name)) k =
      if k ∈ hps.map Param.name then some (g k) else none := by
  induction hps with
  | nil => simp [dictGet]
  | cons hp tl ih =>
      by_cases h : k = hp.name
      · subst h; simp [dictGet]
      · simp [dictGet, h, ih]

/-- Claim C9: converting a parameter dictionary whose key set is exactly the
hyperparameter names to the canonical array and back yields the same
dictionary, and converting an array with one value per hyperparameter to a
dictionary and back yields the same array; both conversions follow the
canonical order fixed by the `hyperparams` list. -/
theorem param_roundtrip (hps : List Param) (d : PyDict) (arr : List Value)
    (hnodup : (hps.map Param.name).Nodup)
    (hlen : arr.length = hps.length)
    (hkeys : (d.map Prod.fst).Perm (hps.map Param.name)) :
    param_dict_to_arr hps (param_arr_to_dict hps arr) = some arr ∧
    ∃ arr2, param_dict_to_arr hps d = some arr2 ∧
      ∀ k, dictGet (param_arr_to_dict hps arr2) k = dictGet d k := by
  constructor
  · unfold param_arr_to_dict
    rw [pyDictOfList_eq_self]
    · exact param_dict_to_arr_zip hps arr hnodup hlen
    · rw [List.map_fst_zip _ _ (by simp [hlen])]
      exact hnodup
  · have hmem : ∀ hp ∈ hps, (dictGet d hp.name).isSome := by
      intro hp hm
      exact (dictGet_isSome_iff_mem d hp.name).mpr
        (hkeys.mem_iff.mpr (List.mem_map_of_mem Param.name hm))
    refine ⟨_, param_dict_to_arr_eq_map hps d hmem, ?_⟩
    intro k
    unfold param_arr_to_dict
    have hzip : (hps.map Param.name).zip
        (hps.map fun hp => (dictGet d hp.name).getD (.str "")) =
        hps.map fun hp => (hp.name, (dictGet d hp.name).getD (.str "")) := by
      rw [List.zip_map']
    rw [hzip, pyDictOfList_eq_self _ (by
          have : (hps.map fun hp =>
              (hp.name, (dictGet d hp.name).getD (.str ""))).map Prod.fst =
              hps.map Param.name := by
            simp [List.map_map, Function.comp]
          rw [this]; exact hnodup)]
    rw [dictGet_name_map hps (fun n => (dictGet d n).getD (.str "")) k]
    by_cases hk : k ∈ hps.map Param.name
    · rw [if_pos hk]
      have hsome : (dictGet d k).isSome :=
        (dictGet_isSome_iff_mem d k).mpr (hkeys.mem_iff.mpr hk)
      obtain ⟨v, hv⟩ := Option.isSome_iff_exists.mp hsome
      simp [hv]
    · rw [if_neg hk]
      cases hdk : dictGet d k with
      | none => rfl
      | some v =>
          exact absurd ((dictGet_isSome_iff_mem d k).mp (by simp [hdk]))
            (fun hm => hk (hkeys.mem_iff.mp hm))

/-- Witness for C9 at a concrete two-parameter space. -/
theorem param_roundtrip_witness :
    (([⟨"alpha", "continuous", 0, 1, []⟩,
       ⟨"kernel", "categorical", 0, 0, [Value.str "rbf", Value.str "poly"]⟩] :
        List Param).map Param.name).Nodup ∧
    ([Value.float (3/4), Value.str "poly"] : List Value).length = 2 ∧
    (([("kernel", Value.str "rbf"), ("alpha", Value.float (1/2))] :
        PyDict).map Prod.fst).Perm ["alpha", "kernel"] ∧
    (param_dict_to_arr
        [⟨"alpha", "continuous", 0, 1, []⟩,
         ⟨"kernel", "categorical", 0, 0, [Value.str "rbf", Value.str "poly"]⟩]
        (param_arr_to_dict
          [⟨"alpha", "continuous", 0, 1, []⟩,
           ⟨"kernel", "categorical", 0, 0, [Value.str "rbf", Value.str "poly"]⟩]
          [Value.float (3/4), Value.str "poly"]) =
        some [Value.float (3/4), Value.str "poly"] ∧
      ∃ arr2, param_dict_to_arr
          [⟨"alpha", "continuous", 0, 1, []⟩,
           ⟨"kernel", "categorical", 0, 0, [Value.str "rbf", Value.str "poly"]⟩]
          [("kernel", Value.str "rbf"), ("alpha", Value.float (1/2))] = some arr2 ∧
        ∀ k, dictGet (param_arr_to_dict
            [⟨"alpha", "continuous", 0, 1, []⟩,
             ⟨"kernel", "categorical", 0, 0, [Value.str "rbf", Value.str "poly"]⟩]
            arr2) k =
          dictGet [("kernel", Value.str "rbf"), ("alpha", Value.float (1/2))] k) :=
  ⟨by decide, by decide, by decide,
    param_roundtrip _ _ _ (by decide) (by decide) (by decide)⟩

/-- Claim C2: `fit` raises `MissingValueException` when exactly one of
`X_test`/`y_test` is `None`, raises the configuration-conflict `Exception`
when an explicit test set and `n_folds` are both supplied, and raises no
validation error when both test arrays are `None`, in which case the
training data are used for evaluation.  All three facts hold for every
configuration and score function, so the errors occur before any model
evaluation can influence them, and the failing calls produce no history. -/
theorem fit_validation_errors {α : Type} (cfg : FitConfig α) (Xtr Ytr : α)
    (n_iters : ℕ) (n_folds : Option ℕ) :
    (∀ yt, fit cfg Xtr Ytr none (some yt) n_iters n_folds =
      .error .missingValue) ∧
    (∀ xt, fit cfg Xtr Ytr (some xt) none n_iters n_folds =
      .error .missingValue) ∧
    (∀ xt yt k, fit cfg Xtr Ytr (some xt) (some yt) n_iters (some k) =
      .error .configConflict) ∧
    fit cfg Xtr Ytr none none n_iters n_folds =
      fitAux cfg Xtr Ytr n_folds 0 n_iters [] 0 :=
  ⟨fun _ => rfl, fun _ => rfl, fun _ _ _ => rfl, rfl⟩

/-- Claim C3 counterexample: `upper_confidence_bound` does NOT return 0 at a
query point with zero predicted standard deviation — it has no `std == 0`
branch and returns the posterior mean, here 1. -/
theorem ucb_zero_std_counterexample :
    upper_confidence_bound 1 0 ≠ 0 ∧ upper_confidence_bound 1 0 = 1 := by
  unfold upper_confidence_bound
  norm_num

/-- Claim C3 (amended): at a query point with predicted standard deviation 0,
`expected_improvement`, `generalized_expected_improvement` and
`probability_of_improvement` each return exactly 0, their `std == 0` branch
short-circuiting before any division by `std`; `upper_confidence_bound` has
no such branch and returns `mean + 1.96·0 = mean` (performing no division). -/
theorem acquisition_zero_std (mu current_best xi : ℝ) :
    expected_improvement mu 0 current_best = 0 ∧
    generalized_expected_improvement mu 0 current_best xi = 0 ∧
    probability_of_improvement mu 0 current_best = 0 ∧
    upper_confidence_bound mu 0 = mu := by
  refine ⟨?_, ?_, ?_, ?_⟩
  · simp [expected_improvement]
  · simp [generalized_expected_improvement]
  · simp [probability_of_improvement]
  · unfold upper_confidence_bound; ring

/-- Claim C7 (code bug): `_normalize_params` cannot normalize even the
specification's own example — a single continuous parameter with
`lower=0, upper=10` and the point value 5.  The centering step succeeds
(yielding 0), but the scaling step `x[:, ranges>0]` compares the Python
list `ranges` with an integer, which raises `TypeError`; the zero-range
exclusion and the claimed result are never reached. -/
theorem normalize_params_raises :
    normalize_params [⟨"learning_rate", "continuous", 0, 10, []⟩]
      [[Value.float 5]] = .error .typeError := rfl

/-! ### `get_next_hyperparameters` loop lemmas -/

theorem gnhAux_zero_none (cfg : GnhConfig) (rs : ℕ → List (List Value))
    (count j : ℕ) : gnhAux cfg rs count j 0 none = .error .nameError := rfl

theorem gnhAux_zero_cons (cfg : GnhConfig) (rs : ℕ → List (List Value))
    (count j : ℕ) (row : List Value) (rest : List (List Value)) :
    gnhAux cfg rs count j 0 (some (row :: rest)) =
      .ok ⟨pyDictOfList ((cfg.hyperparams.map Param.name).zip row),
           false, count + 1, true⟩ := rfl

theorem gnhAux_succ (cfg : GnhConfig) (rs : ℕ → List (List Value))
    (count j fuel : ℕ) (last : Option (List (List Value))) :
    gnhAux cfg rs count j (fuel + 1) last =
      if (cfg.attemptResult j (startArrAt cfg rs j)).success then
        match buildParams cfg.hyperparams
            (cfg.attemptResult j (startArrAt cfg rs j)).x with
        | .ok d => .ok ⟨d, true, count, false⟩
        | .error e => .error e
      else gnhAux cfg rs count (j + 1) fuel (some (startArrAt cfg rs j)) := rfl

theorem gnhAux_all_fail (cfg : GnhConfig) (rs : ℕ → List (List Value))
    (count : ℕ) :
    ∀ fuel j last, 0 < fuel →
      (∀ t, t < fuel →
        (cfg.attemptResult (j + t) (startArrAt cfg rs (j + t))).success = false) →
      gnhAux cfg rs count j fuel last =
        gnhAux cfg rs count (j + fuel) 0
          (some (startArrAt cfg rs (j + fuel - 1))) := by
  intro fuel
  induction fuel with
  | zero => intro j last h; omega
  | succ f ih =>
      intro j last _ hfail
      have h0 : (cfg.attemptResult j (startArrAt cfg rs j)).success = false := by
        simpa using hfail 0 (by omega)
      rw [gnhAux_succ, h0]
      simp only [Bool.false_eq_true, if_false]
      cases f with
      | zero => simp
      | succ f' =>
          have hfail' : ∀ t, t < f' + 1 →
              (cfg.attemptResult ((j + 1) + t)
                (startArrAt cfg rs ((j + 1) + t))).success = false := by
            intro t ht
            have := hfail (t + 1) (by omega)
            have harith : j + (t + 1) = (j + 1) + t := by omega
            rwa [harith] at this
          rw [ih (j + 1) (some (startArrAt cfg rs j)) (by omega) hfail']
          have h1 : (j + 1) + (f' + 1) = j + (f' + 1 + 1) := by omega
          rw [h1]

theorem gnhAux_first_success (cfg : GnhConfig) (rs : ℕ → List (List Value))
    (count : ℕ) :
    ∀ k fuel j last, k < fuel →
      (∀ t, t < k →
        (cfg.attemptResult (j + t) (startArrAt cfg rs (j + t))).success = false) →
      (cfg.attemptResult (j + k) (startArrAt cfg rs (j + k))).success = true →
      gnhAux cfg rs count j fuel last =
        match buildParams cfg.hyperparams
            (cfg.attemptResult (j + k) (startArrAt cfg rs (j + k))).x with
        | .ok d => .ok ⟨d, true, count, false⟩
        | .error e => .error e := by
  intro k
  induction k with
  | zero =>
      intro fuel j last hk _ hsucc
      cases fuel with
      | zero => omega
      | succ f =>
          simp only [Nat.add_zero] at hsucc
          rw [gnhAux_succ, hsucc]
          simp
  | succ k' ih =>
      intro fuel j last hk hfail hsucc
      cases fuel with
      | zero => omega
      | succ f =>
          have h0 : (cfg.attemptResult j (startArrAt cfg rs j)).success = false := by
            simpa using hfail 0 (by omega)
          rw [gnhAux_succ, h0]
          simp only [Bool.false_eq_true, if_false]
          have hfail' : ∀ t, t < k' →
              (cfg.attemptResult ((j + 1) + t)
                (startArrAt cfg rs ((j + 1) + t))).success = false := by
            intro t ht
            have := hfail (t + 1) (by omega)
            have harith : j + (t + 1) = (j + 1) + t := by omega
            rwa [harith] at this
          have harith2 : j + (k' + 1) = (j + 1) + k' := by omega
          rw [harith2] at hsucc ⊢
          exact ih f (j + 1) (some (startArrAt cfg rs j)) (by omega) hfail' hsucc

/-- Claim C10: when `start_vals` is supplied at construction, every restart
attempt of `get_next_hyperparameters` takes its start vector from the
stored default values instead of a fresh random draw, so all attempts
within one call use the identical start vector and the outcome does not
depend on the random stream at all. -/
theorem start_vals_degenerate_restarts (cfg : GnhConfig)
    (sv : List (List Value)) (h : cfg.start_vals = some sv) :
    (∀ rs j, startArrAt cfg rs j = sv) ∧
    (∀ rs rs' count, get_next_hyperparameters cfg rs count =
      get_next_hyperparameters cfg rs' count) := by
  have h1 : ∀ rs j, startArrAt cfg rs j = sv := by
    intro rs j; simp [startArrAt, h]
  refine ⟨h1, ?_⟩
  intro rs rs' count
  unfold get_next_hyperparameters
  suffices hgen : ∀ fuel j last,
      gnhAux cfg rs count j fuel last = gnhAux cfg rs' count j fuel last from
    hgen _ _ _
  intro fuel
  induction fuel with
  | zero => intro j last; rfl
  | succ f ih =>
      intro j last
      rw [gnhAux_succ, gnhAux_succ, h1 rs j, h1 rs' j]
      cases (cfg.attemptResult j sv).success with
      | true => simp
      | false => simp [ih]

/-- Witness for C10: a configuration with a supplied `start_vals`. -/
theorem start_vals_degenerate_restarts_witness :
    (∀ rs j, startArrAt
        ⟨[⟨"alpha", "continuous", 0, 1, []⟩], 4, some [[Value.float (1/2)]],
         fun _ _ => ⟨false, []⟩⟩ rs j = [[Value.float (1/2)]]) ∧
    (∀ rs rs' count, get_next_hyperparameters
        ⟨[⟨"alpha", "continuous", 0, 1, []⟩], 4, some [[Value.float (1/2)]],
         fun _ _ => ⟨false, []⟩⟩ rs count =
      get_next_hyperparameters
        ⟨[⟨"alpha", "continuous", 0, 1, []⟩], 4, some [[Value.float (1/2)]],
         fun _ _ => ⟨false, []⟩⟩ rs' count) :=
  start_vals_degenerate_restarts _ _ rfl

/-- Claim C1: in an iteration `i > 0` in which every one of the
`n_restarts_optimizer` acquisition-maximization attempts reports
`success=False`, `get_next_hyperparameters` returns normally (no exception)
with the warning emitted, `non_convergence_count` incremented by exactly 1,
and the parameter dictionary built from the first row of the last attempted
random start array; the `fit` loop then scores that dictionary and appends
the `(score, params)` pair to the history. -/
theorem nonconvergence_fallback_keeps_loop_alive {α : Type}
    (cfg : FitConfig α) (Xe Ye : α) (n_folds : Option ℕ) (i : ℕ)
    (hist : List (ℚ × PyDict)) (ncc : ℕ) (xs : List (List Value)) (n : ℕ)
    (row : List Value) (rest : List (List Value))
    (hi : i ≠ 0)
    (hnorm : cfg.normalize = false)
    (hhist : histToMatrix cfg.hyperparams hist = some xs)
    (hfuel : cfg.n_restarts_optimizer = n + 1)
    (hrand : cfg.start_vals = none)
    (hfail : ∀ j, j ≤ n →
      (cfg.attemptResult i j (cfg.randomStarts i j)).success = false)
    (hrow : cfg.randomStarts i n = row :: rest) :
    get_next_hyperparameters (gnhConfigAt cfg i) (cfg.randomStarts i) ncc =
      .ok ⟨pyDictOfList ((cfg.hyperparams.map Param.name).zip row),
           false, ncc + 1, true⟩ ∧
    fitStep cfg Xe Ye n_folds i hist ncc =
      .ok (hist ++
        [(cfg.evalScore
            (pyDictOfList ((cfg.hyperparams.map Param.name).zip row)) Xe Ye n_folds,
          pyDictOfList ((cfg.hyperparams.map Param.name).zip row))],
        ncc + 1) := by
  have hstart : ∀ j, startArrAt (gnhConfigAt cfg i) (cfg.randomStarts i) j =
      cfg.randomStarts i j := by
    intro j; simp [startArrAt, gnhConfigAt, hrand]
  have hgnh : get_next_hyperparameters (gnhConfigAt cfg i)
      (cfg.randomStarts i) ncc =
      .ok ⟨pyDictOfList ((cfg.hyperparams.map Param.name).zip row),
           false, ncc + 1, true⟩ := by
    unfold get_next_hyperparameters
    have hn : (gnhConfigAt cfg i).n_restarts_optimizer = n + 1 := hfuel
    rw [hn]
    rw [gnhAux_all_fail (gnhConfigAt cfg i) (cfg.randomStarts i) ncc (n + 1) 0
      none (by omega) ?_]
    · have harith : 0 + (n + 1) - 1 = n := by omega
      rw [harith, hstart n, hrow]
      have harith2 : 0 + (n + 1) = n + 1 := by omega
      rw [harith2, gnhAux_zero_cons]
      rfl
    · intro t ht
      have harith : 0 + t = t := by omega
      rw [harith, hstart t]
      exact hfail t (by omega)
  refine ⟨hgnh, ?_⟩
  unfold fitStep
  rw [if_neg hi, hhist]
  simp only [hnorm, Bool.false_eq_true, if_false]
  rw [hgnh]

/-- Witness for C1: one parameter, two restarts, both failing. -/
theorem nonconvergence_fallback_keeps_loop_alive_witness :
    get_next_hyperparameters
        (gnhConfigAt
          (⟨[⟨"alpha", "continuous", 0, 1, []⟩], 2, none, false,
            [Value.float (1/2)],
            fun _ j => [[Value.float (j : ℚ)]],
            fun _ _ _ => ⟨false, []⟩,
            fun _ _ _ _ => 7⟩ : FitConfig Unit) 1)
        ((⟨[⟨"alpha", "continuous", 0, 1, []⟩], 2, none, false,
            [Value.float (1/2)],
            fun _ j => [[Value.float (j : ℚ)]],
            fun _ _ _ => ⟨false, []⟩,
            fun _ _ _ _ => 7⟩ : FitConfig Unit).randomStarts 1) 0 =
      .ok ⟨[("alpha", Value.float 1)], false, 1, true⟩ ∧
    fitStep
        (⟨[⟨"alpha", "continuous", 0, 1, []⟩], 2, none, false,
          [Value.float (1/2)],
          fun _ j => [[Value.float (j : ℚ)]],
          fun _ _ _ => ⟨false, []⟩,
          fun _ _ _ _ => 7⟩ : FitConfig Unit) () () none 1 [] 0 =
      .ok ([(7, [("alpha", Value.float 1)])], 1) :=
  nonconvergence_fallback_keeps_loop_alive
    (⟨[⟨"alpha", "continuous", 0, 1, []⟩], 2, none, false,
      [Value.float (1/2)],
      fun _ j => [[Value.float (j : ℚ)]],
      fun _ _ _ => ⟨false, []⟩,
      fun _ _ _ _ => 7⟩ : FitConfig Unit) () () none 1 [] 0 [] 1
    [Value.float 1] [] (by decide) rfl rfl rfl rfl (fun _ _ => rfl) rfl

/-! ### Cast discipline of successful proposals -/

theorem castParamValue_integer_float (hp : Param) (q : ℚ)
    (h : hp.param_type = "integer") :
    castParamValue hp (.float q) = .ok (.int (roundHalfToEven q)) := by
  rw [castParamValue.eq_def, if_pos h]

theorem castParamValue_integer_int (hp : Param) (m : ℤ)
    (h : hp.param_type = "integer") :
    castParamValue hp (.int m) = .ok (.int m) := by
  rw [castParamValue.eq_def, if_pos h]

theorem castParamValue_categorical (hp : Param) (v : Value)
    (h : hp.param_type = "categorical") :
    castParamValue hp v = .ok (.str (pyStr v)) := by
  rw [castParamValue.eq_def,
    if_neg (fun hh => by rw [h] at hh; exact absurd hh (by decide)), if_pos h]

theorem castParamValue_other (hp : Param) (v : Value)
    (h1 : hp.param_type ≠ "integer") (h2 : hp.param_type ≠ "categorical") :
    castParamValue hp v = .ok v := by
  rw [castParamValue.eq_def, if_neg h1, if_neg h2]

theorem buildParamsList_keys :
    ∀ (pl : List (Param × Value)) (l : List (String × Value)),
      buildParamsList pl = .ok l →
      l.map Prod.fst = pl.map (fun p => p.1.name) := by
  intro pl
  induction pl with
  | nil =>
      intro l h
      simp only [buildParamsList, Except.ok.injEq] at h
      subst h; rfl
  | cons p tl ih =>
      intro l h
      obtain ⟨hp, v⟩ := p
      cases hc : castParamValue hp v with
      | error e => simp [buildParamsList, hc] at h
      | ok w =>
          cases hr : buildParamsList tl with
          | error e => simp [buildParamsList, hc, hr] at h
          | ok tail =>
              simp only [buildParamsList, hc, hr, Except.ok.injEq] at h
              subst h
              simp [ih tail hr]

theorem dictGet_buildParamsList :
    ∀ (hps : List Param) (xs : List Value) (l : List (String × Value)),
      (hps.map Param.name).Nodup → xs.length = hps.length →
      buildParamsList (hps.zip xs) = .ok l →
      ∀ i, i < hps.length →
        ∃ w, castParamValue (hps.getD i default) (xs.getD i (.str "")) = .ok w ∧
          dictGet l (hps.getD i default).name = some w := by
  intro hps
  induction hps with
  | nil => intro xs l _ _ _ i hi; simp at hi
  | cons hp tl ih =>
      intro xs l hnodup hlen hb i hi
      cases xs with
      | nil => simp at hlen
      | cons v vt =>
          rw [List.zip_cons_cons] at hb
          cases hc : castParamValue hp v with
          | error e => simp [buildParamsList, hc] at hb
          | ok w =>
              cases hr : buildParamsList (tl.zip vt) with
              | error e => simp [buildParamsList, hc, hr] at hb
              | ok tail =>
                  simp only [buildParamsList, hc, hr, Except.ok.injEq] at hb
                  subst hb
                  rw [List.map_cons] at hnodup
                  obtain ⟨hnm, hnd'⟩ := List.nodup_cons.mp hnodup
                  cases i with
                  | zero =>
                      refine ⟨w, by simpa using hc, ?_⟩
                      simp [dictGet]
                  | succ i' =>
                      have hi' : i' < tl.length := by simpa using hi
                      have hmem : (tl.getD i' default) ∈ tl := by
                        rw [List.getD_eq_getElem _ _ hi']
                        exact List.getElem_mem hi'
                      have hne : (tl.getD i' default).name ≠ hp.name := by
                        intro heq
                        exact hnm (heq ▸ List.mem_map_of_mem Param.name hmem)
                      obtain ⟨w', hw1, hw2⟩ :=
                        ih vt tail hnd' (by simpa using hlen) hr i' hi'
                      refine ⟨w', by simpa using hw1, ?_⟩
                      show dictGet ((hp.name, w) :: tail)
                        ((hp :: tl).getD (i' + 1) default).name = some w'
                      rw [List.getD_cons_succ]
                      show (if (tl.getD i' default).name = hp.name then some w
                        else dictGet tail (tl.getD i' default).name) = some w'
                      rw [if_neg hne]
                      exact hw2

theorem dictGet_buildParams (hps : List Param) (xs : List Value) (d : PyDict)
    (hnodup : (hps.map Param.name).Nodup) (hlen : xs.length = hps.length)
    (hb : buildParams hps xs = .ok d) :
    ∀ i, i < hps.length →
      ∃ w, castParamValue (hps.getD i default) (xs.getD i (.str "")) = .ok w ∧
        dictGet d (hps.getD i default).name = some w := by
  cases hl : buildParamsList (hps.zip xs) with
  | error e => rw [buildParams, hl] at hb; simp [Except.map] at hb
  | ok l =>
      rw [buildParams, hl] at hb
      simp only [Except.map, Except.ok.injEq] at hb
      subst hb
      have hkeys : l.map Prod.fst = hps.map Param.name := by
        rw [buildParamsList_keys (hps.zip xs) l hl]
        have h1 : (hps.zip xs).map (fun p => p.1.name) =
            ((hps.zip xs).map Prod.fst).map Param.name := by
          simp [List.map_map, Function.comp]
        rw [h1, List.map_fst_zip _ _ (le_of_eq hlen.symm)]
      rw [pyDictOfList_eq_self l (hkeys ▸ hnodup)]
      exact dictGet_buildParamsList hps xs l hnodup hlen hl

/-- Claim C4 counterexample: for a categorical hyperparameter whose declared
values are integers, a successful proposal maps it to the STRING `"3"`
(Python `str(v)`), which neither equals the declared integer value nor
belongs to the declared value set — the cast is to `str`, not to the
parameter's declared value type. -/
theorem categorical_cast_counterexample :
    get_next_hyperparameters
        ⟨[⟨"max_depth", "categorical", 0, 0,
           [Value.int 1, Value.int 2, Value.int 3]⟩],
         1, none, fun _ _ => ⟨true, [Value.int 3]⟩⟩
        (fun _ => [[Value.int 1]]) 0 =
      .ok ⟨[("max_depth", Value.str "3")], true, 0, false⟩ ∧
    valueKind (Value.str "3") ≠ valueKind (Value.int 3) ∧
    Value.str "3" ∉ [Value.int 1, Value.int 2, Value.int 3] :=
  ⟨rfl, by decide, by decide⟩

/-- Claim C4 (amended): whenever a restart attempt succeeds, the returned
proposal maps each hyperparameter name to `int(round(v))` for integer-typed
parameters (nearest integer, halves to even), to `str(v)` — the string form
of the value, regardless of the declared value type — for categorical
parameters, and to the value unchanged for all remaining (continuous)
parameters. -/
theorem success_cast_discipline (cfg : GnhConfig) (rs : ℕ → List (List Value))
    (count k : ℕ) (d : PyDict)
    (hk : k < cfg.n_restarts_optimizer)
    (hfail : ∀ t, t < k →
      (cfg.attemptResult t (startArrAt cfg rs t)).success = false)
    (hsucc : (cfg.attemptResult k (startArrAt cfg rs k)).success = true)
    (hnodup : (cfg.hyperparams.map Param.name).Nodup)
    (hlen : (cfg.attemptResult k (startArrAt cfg rs k)).x.length =
      cfg.hyperparams.length)
    (hbuild : buildParams cfg.hyperparams
      (cfg.attemptResult k (startArrAt cfg rs k)).x = .ok d) :
    get_next_hyperparameters cfg rs count = .ok ⟨d, true, count, false⟩ ∧
    ∀ i, i < cfg.hyperparams.length →
      (((cfg.hyperparams.getD i default).param_type = "integer" →
        (∀ q, (cfg.attemptResult k (startArrAt cfg rs k)).x.getD i (.str "") =
            .float q →
          dictGet d (cfg.hyperparams.getD i default).name =
            some (.int (roundHalfToEven q))) ∧
        (∀ m, (cfg.attemptResult k (startArrAt cfg rs k)).x.getD i (.str "") =
            .int m →
          dictGet d (cfg.hyperparams.getD i default).name = some (.int m))) ∧
      ((cfg.hyperparams.getD i default).param_type = "categorical" →
        dictGet d (cfg.hyperparams.getD i default).name =
          some (.str (pyStr
            ((cfg.attemptResult k (startArrAt cfg rs k)).x.getD i (.str ""))))) ∧
      ((cfg.hyperparams.getD i default).param_type ≠ "integer" →
        (cfg.hyperparams.getD i default).param_type ≠ "categorical" →
        dictGet d (cfg.hyperparams.getD i default).name =
          some ((cfg.attemptResult k (startArrAt cfg rs k)).x.getD i (.str "")))) := by
  constructor
  · unfold get_next_hyperparameters
    rw [gnhAux_first_success cfg rs count k cfg.n_restarts_optimizer 0 none hk
      (by intro t ht; simpa using hfail t ht) (by simpa using hsucc)]
    rw [show (0:ℕ) + k = k from Nat.zero_add k, hbuild]
  · intro i hi
    obtain ⟨w, hw1, hw2⟩ := dictGet_buildParams cfg.hyperparams
      (cfg.attemptResult k (startArrAt cfg rs k)).x d hnodup hlen hbuild i hi
    refine ⟨?_, ?_, ?_⟩
    · intro hint
      constructor
      · intro q hq
        rw [hq, castParamValue_integer_float _ _ hint,
          Except.ok.injEq] at hw1
        rw [hw2, ← hw1]
      · intro m hm
        rw [hm, castParamValue_integer_int _ _ hint,
          Except.ok.injEq] at hw1
        rw [hw2, ← hw1]
    · intro hcat
      rw [castParamValue_categorical _ _ hcat, Except.ok.injEq] at hw1
      rw [hw2, ← hw1]
    · intro hni hnc
      rw [castParamValue_other _ _ hni hnc, Except.ok.injEq] at hw1
      rw [hw2, ← hw1]

/-- Witness for the amended C4 at a three-parameter space: the integer
coordinate 5/2 rounds to 2, the categorical coordinate `int 3` becomes the
string `"3"`, the continuous coordinate 1/3 is unchanged. -/
theorem success_cast_discipline_witness :
    (0 < 1) ∧
    get_next_hyperparameters
        ⟨[⟨"n_estimators", "integer", 0, 9, []⟩,
          ⟨"booster", "categorical", 0, 0,
            [Value.int 1, Value.int 2, Value.int 3]⟩,
          ⟨"eta", "continuous", 0, 1, []⟩],
         1, none,
         fun _ _ => ⟨true, [Value.float (mkRat 5 2), Value.int 3, Value.float (mkRat 1 3)]⟩⟩
        (fun _ => [[Value.float 0, Value.int 1, Value.float 0]]) 0 =
      .ok ⟨[("n_estimators", Value.int 2), ("booster", Value.str "3"),
            ("eta", Value.float (mkRat 1 3))], true, 0, false⟩ :=
  ⟨by decide,
    (success_cast_discipline
      ⟨[⟨"n_estimators", "integer", 0, 9, []⟩,
        ⟨"booster", "categorical", 0, 0,
          [Value.int 1, Value.int 2, Value.int 3]⟩,
        ⟨"eta", "continuous", 0, 1, []⟩],
       1, none,
       fun _ _ => ⟨true, [Value.float (mkRat 5 2), Value.int 3, Value.float (mkRat 1 3)]⟩⟩
      (fun _ => [[Value.float 0, Value.int 1, Value.float 0]]) 0 0
      [("n_estimators", Value.int 2), ("booster", Value.str "3"),
       ("eta", Value.float (mkRat 1 3))]
      (by decide) (fun t ht => absurd ht (Nat.not_lt_zero t)) rfl
      (by decide) rfl (by decide)).1⟩

/-! ### Categorical acquisition maximization -/

theorem mem_cartesian_product_length :
    ∀ (ls : List (List Value)) (g : List Value),
      g ∈ cartesian_product ls → g.length = ls.length := by
  intro ls
  induction ls with
  | nil =>
      intro g hg
      simp [cartesian_product] at hg
      simp [hg]
  | cons l tl ih =>
      intro g hg
      simp only [cartesian_product, List.mem_flatMap, List.mem_map] at hg
      obtain ⟨v, _, c, hc, rfl⟩ := hg
      simp [ih c hc]

theorem foldl_find_max_mem (acq : List Value → ℚ) :
    ∀ (gs : List (List Value)) (g : List Value),
      (gs.foldl (fun best c => if acq best < acq c then c else best) g) ∈ g :: gs := by
  intro gs
  induction gs with
  | nil => intro g; simp
  | cons c' gs' ih =>
      intro g
      rw [List.foldl_cons]
      have := ih (if acq g < acq c' then c' else g)
      rcases List.mem_cons.mp this with h | h
      · rw [h]
        by_cases hc : acq g < acq c'
        · rw [if_pos hc]; simp
        · rw [if_neg hc]; simp
      · simp [h]

theorem foldl_find_max_ge (acq : List Value → ℚ) :
    ∀ (gs : List (List Value)) (g : List Value), ∀ c ∈ g :: gs,
      acq c ≤ acq (gs.foldl (fun best c => if acq best < acq c then c else best) g) := by
  intro gs
  induction gs with
  | nil =>
      intro g c hc
      simp at hc
      simp [hc]
  | cons c' gs' ih =>
      intro g c hc
      rw [List.foldl_cons]
      have hstep : acq g ≤ acq (if acq g < acq c' then c' else g) ∧
          acq c' ≤ acq (if acq g < acq c' then c' else g) := by
        by_cases hgc : acq g < acq c'
        · rw [if_pos hgc]; exact ⟨le_of_lt hgc, le_refl _⟩
        · rw [if_neg hgc]; exact ⟨le_refl _, le_of_not_lt hgc⟩
      have hhead := ih (if acq g < acq c' then c' else g)
        (if acq g < acq c' then c' else g) (by simp)
      rcases List.mem_cons.mp hc with rfl | hc2
      · exact le_trans hstep.1 hhead
      · rcases List.mem_cons.mp hc2 with rfl | hc3
        · exact le_trans hstep.2 hhead
        · exact ih (if acq g < acq c' then c' else g) c (by simp [hc3])

theorem roundtrip_arr (hps : List Param) (arr : List Value)
    (hnodup : (hps.map Param.name).Nodup) (hlen : arr.length = hps.length) :
    param_dict_to_arr hps (param_arr_to_dict hps arr) = some arr := by
  unfold param_arr_to_dict
  rw [pyDictOfList_eq_self]
  · exact param_dict_to_arr_zip hps arr hnodup hlen
  · rw [List.map_fst_zip _ _ (by simp [hlen])]
    exact hnodup

/-- Claim C6: when the size of the cartesian product of the categorical
value sets is at most 1000, `optimize_categorical_problem` evaluates the
acquisition function on every grid combination and returns an exact
maximizer with `success=True` unconditionally; when the grid is larger, the
simulated annealer is used instead and `success` is `False` exactly when
the annealer's returned score is NaN. -/
theorem optimize_categorical_dispatch (hps : List Param)
    (acq : List Value → ℚ) (annealerParams : PyDict)
    (annealerScore : Option ℚ) (arr0 : List Value)
    (hnodup : (hps.map Param.name).Nodup)
    (hgrid : cartesian_product (hps.map Param.possible_values) ≠ [])
    (hann : param_dict_to_arr hps annealerParams = some arr0) :
    ((cartesian_product (hps.map Param.possible_values)).length ≤ 1000 →
      ∃ r, optimize_categorical_problem hps acq annealerParams annealerScore =
          .ok r ∧
        r.success = true ∧
        r.x ∈ cartesian_product (hps.map Param.possible_values) ∧
        ∀ g ∈ cartesian_product (hps.map Param.possible_values),
          acq g ≤ acq r.x) ∧
    (1000 < (cartesian_product (hps.map Param.possible_values)).length →
      optimize_categorical_problem hps acq annealerParams annealerScore =
        .ok ⟨annealerScore.isSome, arr0⟩ ∧
      (annealerScore.isSome = true ↔ annealerScore ≠ none)) := by
  have hdef : optimize_categorical_problem hps acq annealerParams annealerScore =
      (if (cartesian_product (hps.map Param.possible_values)).length > 1000 then
        match param_dict_to_arr hps annealerParams with
        | none => (Except.error PyErr.keyError : Except PyErr MinimizedResult)
        | some arr => Except.ok ⟨annealerScore.isSome, arr⟩
      else
        match find_max acq (cartesian_product (hps.map Param.possible_values)) with
        | none => Except.error PyErr.valueError
        | some max_vals =>
            match param_dict_to_arr hps (param_arr_to_dict hps max_vals) with
            | none => Except.error PyErr.keyError
            | some arr => Except.ok ⟨true, arr⟩) := rfl
  constructor
  · intro hle
    cases heq : cartesian_product (hps.map Param.possible_values) with
    | nil => exact absurd heq hgrid
    | cons g gs =>
        have hxmem : (gs.foldl (fun best c => if acq best < acq c then c else best) g)
            ∈ g :: gs := foldl_find_max_mem acq gs g
        have hxlen : (gs.foldl (fun best c => if acq best < acq c then c else best) g).length
            = hps.length := by
          have := mem_cartesian_product_length (hps.map Param.possible_values) _
            (heq ▸ hxmem)
          simpa using this
        refine ⟨⟨true, gs.foldl (fun best c => if acq best < acq c then c else best) g⟩,
          ?_, rfl, heq ▸ hxmem, ?_⟩
        · rw [heq] at hle
          rw [hdef, heq, if_neg (by omega)]
          show (match param_dict_to_arr hps (param_arr_to_dict hps
              (gs.foldl (fun best c => if acq best < acq c then c else best) g)) with
            | none => (Except.error PyErr.keyError : Except PyErr MinimizedResult)
            | some arr => Except.ok ⟨true, arr⟩) =
            Except.ok ⟨true, gs.foldl (fun best c => if acq best < acq c then c else best) g⟩
          rw [roundtrip_arr hps _ hnodup hxlen]
        · intro c hcmem
          exact foldl_find_max_ge acq gs g c hcmem
  · intro hgt
    constructor
    · rw [hdef, if_pos (by omega), hann]
    · exact Option.isSome_iff_ne_none

/-- Witness for C6: the spec's example of two categorical parameters with
three values each, a 9-point grid, maximized at `("b", "f")`. -/
theorem optimize_categorical_dispatch_witness :
    (cartesian_product
        (([⟨"p", "categorical", 0, 0,
             [Value.str "a", Value.str "b", Value.str "c"]⟩,
           ⟨"q", "categorical", 0, 0,
             [Value.str "d", Value.str "e", Value.str "f"]⟩] :
          List Param).map Param.possible_values)).length ≤ 1000 ∧
    ∃ r, optimize_categorical_problem
        [⟨"p", "categorical", 0, 0,
           [Value.str "a", Value.str "b", Value.str "c"]⟩,
         ⟨"q", "categorical", 0, 0,
           [Value.str "d", Value.str "e", Value.str "f"]⟩]
        (fun g => if g = [Value.str "b", Value.str "f"] then 5 else 1)
        [("p", Value.str "a"), ("q", Value.str "d")] none = .ok r ∧
      r.success = true ∧
      r.x ∈ cartesian_product
        (([⟨"p", "categorical", 0, 0,
             [Value.str "a", Value.str "b", Value.str "c"]⟩,
           ⟨"q", "categorical", 0, 0,
             [Value.str "d", Value.str "e", Value.str "f"]⟩] :
          List Param).map Param.possible_values) ∧
      ∀ g ∈ cartesian_product
        (([⟨"p", "categorical", 0, 0,
             [Value.str "a", Value.str "b", Value.str "c"]⟩,
           ⟨"q", "categorical", 0, 0,
             [Value.str "d", Value.str "e", Value.str "f"]⟩] :
          List Param).map Param.possible_values),
        (fun g => if g = [Value.str "b", Value.str "f"] then (5:ℚ) else 1) g ≤
          (fun g => if g = [Value.str "b", Value.str "f"] then (5:ℚ) else 1) r.x :=
  ⟨by decide,
    (optimize_categorical_dispatch
      [⟨"p", "categorical", 0, 0,
         [Value.str "a", Value.str "b", Value.str "c"]⟩,
       ⟨"q", "categorical", 0, 0,
         [Value.str "d", Value.str "e", Value.str "f"]⟩]
      (fun g => if g = [Value.str "b", Value.str "f"] then 5 else 1)
      [("p", Value.str "a"), ("q", Value.str "d")] none
      [Value.str "a", Value.str "d"]
      (by decide) (by decide) (by decide)).1 (by decide)⟩

/-! ### Key coverage of built dictionaries -/

theorem dictGet_dictSet_self (d : PyDict) (k : String) (v : Value) :
    dictGet (dictSet d k v) k = some v := by
  induction d with
  | nil => simp [dictSet, dictGet]
  | cons p tl ih =>
      obtain ⟨k0, v0⟩ := p
      by_cases h : k0 = k
      · subst h
        simp [dictSet, dictGet]
      · have h' : ¬k = k0 := fun hh => h hh.symm
        simp [dictSet, dictGet, h, h', ih]

theorem dictGet_dictSet_isSome_mono (d : PyDict) (k k' : String) (v : Value)
    (h : (dictGet d k').isSome) : (dictGet (dictSet d k v) k').isSome := by
  induction d with
  | nil => simp [dictGet] at h
  | cons p tl ih =>
      obtain ⟨k0, v0⟩ := p
      by_cases h0 : k0 = k
      · subst h0
        by_cases h1 : k' = k0
        · simp [dictSet, dictGet, h1]
        · simp only [dictGet, if_neg h1] at h
          simp [dictSet, dictGet, h1, h]
      · by_cases h1 : k' = k0
        · simp [dictSet, dictGet, h0, h1]
        · simp only [dictGet, if_neg h1] at h
          simp [dictSet, dictGet, h0, h1, ih h]

theorem dictGet_foldl_isSome :
    ∀ (l : List (String × Value)) (acc : PyDict) (k : String),
      (k ∈ l.map Prod.fst ∨ (dictGet acc k).isSome) →
      (dictGet (l.foldl (fun d kv => dictSet d kv.1 kv.2) acc) k).isSome := by
  intro l
  induction l with
  | nil =>
      intro acc k h
      rcases h with h | h
      · simp at h
      · simpa using h
  | cons p tl ih =>
      intro acc k h
      obtain ⟨k0, v0⟩ := p
      rw [List.foldl_cons]
      apply ih
      by_cases hk : k = k0
      · subst hk
        right
        simp [dictGet_dictSet_self]
      · rcases h with h | h
        · simp only [List.map_cons, List.mem_cons] at h
          rcases h with h | h
          · exact absurd h hk
          · exact Or.inl h
        · exact Or.inr (dictGet_dictSet_isSome_mono acc k0 k v0 h)

theorem dictGet_pyDictOfList_isSome (l : List (String × Value)) (k : String)
    (h : k ∈ l.map Prod.fst) : (dictGet (pyDictOfList l) k).isSome :=
  dictGet_foldl_isSome l [] k (Or.inl h)

theorem dictGet_zip_isSome (names : List String) (vals : List Value) (k : String)
    (hlen : names.length ≤ vals.length) (hk : k ∈ names) :
    (dictGet (pyDictOfList (names.zip vals)) k).isSome := by
  apply dictGet_pyDictOfList_isSome
  rw [List.map_fst_zip _ _ hlen]
  exact hk

theorem buildParams_wellformed (hps : List Param) (xs : List Value) (d : PyDict)
    (hlen : xs.length = hps.length) (hb : buildParams hps xs = .ok d) :
    ∀ hp ∈ hps, (dictGet d hp.name).isSome := by
  cases hl : buildParamsList (hps.zip xs) with
  | error e => rw [buildParams, hl] at hb; simp [Except.map] at hb
  | ok l =>
      rw [buildParams, hl] at hb
      simp only [Except.map, Except.ok.injEq] at hb
      subst hb
      intro hp hmem
      apply dictGet_pyDictOfList_isSome
      rw [buildParamsList_keys _ _ hl]
      have hnames : (hps.zip xs).map (fun p => p.1.name) = hps.map Param.name := by
        rw [show (hps.zip xs).map (fun p => p.1.name) =
            ((hps.zip xs).map Prod.fst).map Param.name from by
          simp [List.map_map, Function.comp],
          List.map_fst_zip _ _ (le_of_eq hlen.symm)]
      rw [hnames]
      exact List.mem_map_of_mem Param.name hmem

/-! ### Successful termination of the loops -/

theorem histToMatrix_isSome (hps : List Param) :
    ∀ hist : List (ℚ × PyDict),
      (∀ e ∈ hist, ∀ hp ∈ hps, (dictGet e.2 hp.name).isSome) →
      ∃ xs, histToMatrix hps hist = some xs := by
  intro hist
  induction hist with
  | nil => intro _; exact ⟨[], rfl⟩
  | cons e tl ih =>
      intro hWF
      have hsome : (param_dict_to_arr hps e.2).isSome := by
        rw [param_dict_to_arr_eq_map hps e.2 (hWF e (by simp))]
        rfl
      obtain ⟨a, ha⟩ := Option.isSome_iff_exists.mp hsome
      obtain ⟨xs, hxs⟩ := ih (fun e' he' => hWF e' (by simp [he']))
      exact ⟨a :: xs, by simp [histToMatrix, ha, hxs]⟩

theorem gnhAux_ok (cfg : GnhConfig) (rs : ℕ → List (List Value))
    (hxlen : ∀ j sv, ((cfg.attemptResult j sv).x).length = cfg.hyperparams.length)
    (hcast : ∀ j sv, ∃ d,
      buildParams cfg.hyperparams ((cfg.attemptResult j sv).x) = .ok d)
    (hrow : ∀ j, ∃ row rest, startArrAt cfg rs j = row :: rest ∧
      row.length = cfg.hyperparams.length) :
    ∀ fuel j count last,
      (fuel = 0 → ∃ row rest, last = some (row :: rest) ∧
        row.length = cfg.hyperparams.length) →
      ∃ o, gnhAux cfg rs count j fuel last = .ok o ∧
        ∀ hp ∈ cfg.hyperparams, (dictGet o.result hp.name).isSome := by
  intro fuel
  induction fuel with
  | zero =>
      intro j count last hlast
      obtain ⟨row, rest, hl, hrl⟩ := hlast rfl
      subst hl
      rw [gnhAux_zero_cons]
      refine ⟨_, rfl, ?_⟩
      intro hp hmem
      exact dictGet_zip_isSome _ _ _ (by simp [hrl]) (List.mem_map_of_mem Param.name hmem)
  | succ f ih =>
      intro j count last _
      rw [gnhAux_succ]
      cases hs : (cfg.attemptResult j (startArrAt cfg rs j)).success with
      | true =>
          rw [if_pos rfl]
          obtain ⟨d, hd⟩ := hcast j (startArrAt cfg rs j)
          rw [hd]
          exact ⟨⟨d, true, count, false⟩, rfl,
            buildParams_wellformed cfg.hyperparams _ d (hxlen j _) hd⟩
      | false =>
          simp only [Bool.false_eq_true, if_false]
          exact ih (j + 1) count (some (startArrAt cfg rs j)) (fun _ => by
            obtain ⟨row, rest, hsv, hrl⟩ := hrow j
            exact ⟨row, rest, by rw [hsv], hrl⟩)

theorem gnh_ok (cfg : GnhConfig) (rs : ℕ → List (List Value)) (count : ℕ)
    (h1 : 1 ≤ cfg.n_restarts_optimizer)
    (hxlen : ∀ j sv, ((cfg.attemptResult j sv).x).length = cfg.hyperparams.length)
    (hcast : ∀ j sv, ∃ d,
      buildParams cfg.hyperparams ((cfg.attemptResult j sv).x) = .ok d)
    (hrow : ∀ j, ∃ row rest, startArrAt cfg rs j = row :: rest ∧
      row.length = cfg.hyperparams.length) :
    ∃ o, get_next_hyperparameters cfg rs count = .ok o ∧
      ∀ hp ∈ cfg.hyperparams, (dictGet o.result hp.name).isSome := by
  unfold get_next_hyperparameters
  exact gnhAux_ok cfg rs hxlen hcast hrow cfg.n_restarts_optimizer 0 count none
    (fun h0 => absurd h0 (by omega))

theorem fitAux_zero {α : Type} (cfg : FitConfig α) (Xe Ye : α)
    (n_folds : Option ℕ) (i : ℕ) (hist : List (ℚ × PyDict)) (ncc : ℕ) :
    fitAux cfg Xe Ye n_folds i 0 hist ncc = .ok (hist, ncc) := rfl

theorem fitAux_succ {α : Type} (cfg : FitConfig α) (Xe Ye : α)
    (n_folds : Option ℕ) (i r : ℕ) (hist : List (ℚ × PyDict)) (ncc : ℕ) :
    fitAux cfg Xe Ye n_folds i (r + 1) hist ncc =
      match fitStep cfg Xe Ye n_folds i hist ncc with
      | .error e => .error e
      | .ok (h, n) => fitAux cfg Xe Ye n_folds (i + 1) r h n := rfl

theorem fitStep_ok {α : Type} (cfg : FitConfig α) (Xe Ye : α)
    (n_folds : Option ℕ) (i : ℕ) (hist : List (ℚ × PyDict)) (ncc : ℕ)
    (hnorm : cfg.normalize = false)
    (hWF : ∀ e ∈ hist, ∀ hp ∈ cfg.hyperparams, (dictGet e.2 hp.name).isSome)
    (hinit : cfg.initValues.length = cfg.hyperparams.length)
    (hr : 1 ≤ cfg.n_restarts_optimizer)
    (hxlen : ∀ i' j sv,
      ((cfg.attemptResult i' j sv).x).length = cfg.hyperparams.length)
    (hcast : ∀ i' j sv, ∃ d,
      buildParams cfg.hyperparams ((cfg.attemptResult i' j sv).x) = .ok d)
    (hrow : ∀ i' j, ∃ row rest,
      startArrAt (gnhConfigAt cfg i') (cfg.randomStarts i') j = row :: rest ∧
      row.length = cfg.hyperparams.length) :
    ∃ s p ncc2, fitStep cfg Xe Ye n_folds i hist ncc = .ok (hist ++ [(s, p)], ncc2) ∧
      (∀ hp ∈ cfg.hyperparams, (dictGet p hp.name).isSome) := by
  by_cases hi : i = 0
  · subst hi
    refine ⟨_, _, ncc, rfl, ?_⟩
    intro hp hmem
    exact dictGet_zip_isSome _ _ _ (by simp [hinit])
      (List.mem_map_of_mem Param.name hmem)
  · obtain ⟨xs, hxs⟩ := histToMatrix_isSome cfg.hyperparams hist hWF
    obtain ⟨o, ho, hoWF⟩ := gnh_ok (gnhConfigAt cfg i) (cfg.randomStarts i) ncc
      hr (hxlen i) (hcast i) (hrow i)
    refine ⟨cfg.evalScore o.result Xe Ye n_folds, o.result,
      o.non_convergence_count, ?_, hoWF⟩
    unfold fitStep
    rw [if_neg hi, hxs]
    simp only [hnorm, Bool.false_eq_true, if_false]
    rw [ho]

theorem fitAux_ok {α : Type} (cfg : FitConfig α) (Xe Ye : α)
    (n_folds : Option ℕ)
    (hnorm : cfg.normalize = false)
    (hinit : cfg.initValues.length = cfg.hyperparams.length)
    (hr : 1 ≤ cfg.n_restarts_optimizer)
    (hxlen : ∀ i' j sv,
      ((cfg.attemptResult i' j sv).x).length = cfg.hyperparams.length)
    (hcast : ∀ i' j sv, ∃ d,
      buildParams cfg.hyperparams ((cfg.attemptResult i' j sv).x) = .ok d)
    (hrow : ∀ i' j, ∃ row rest,
      startArrAt (gnhConfigAt cfg i') (cfg.randomStarts i') j = row :: rest ∧
      row.length = cfg.hyperparams.length) :
    ∀ (r i : ℕ) (hist : List (ℚ × PyDict)) (ncc : ℕ),
      (∀ e ∈ hist, ∀ hp ∈ cfg.hyperparams, (dictGet e.2 hp.name).isSome) →
      ∃ t ncc2, fitAux cfg Xe Ye n_folds i r hist ncc = .ok (hist ++ t, ncc2) ∧
        t.length = r ∧
        (∀ e ∈ hist ++ t, ∀ hp ∈ cfg.hyperparams, (dictGet e.2 hp.name).isSome) := by
  intro r
  induction r with
  | zero =>
      intro i hist ncc hWF
      exact ⟨[], ncc, by rw [fitAux_zero, List.append_nil], rfl, by
        simpa using hWF⟩
  | succ r' ih =>
      intro i hist ncc hWF
      obtain ⟨s, p, ncc2, hstep, hpWF⟩ := fitStep_ok cfg Xe Ye n_folds i hist ncc
        hnorm hWF hinit hr hxlen hcast hrow
      have hWF' : ∀ e ∈ hist ++ [(s, p)], ∀ hp ∈ cfg.hyperparams,
          (dictGet e.2 hp.name).isSome := by
        intro e he hp hmem
        rcases List.mem_append.mp he with he | he
        · exact hWF e he hp hmem
        · simp only [List.mem_singleton] at he
          subst he
          exact hpWF hp hmem
      obtain ⟨t, ncc3, hrec, hlen, hWF2⟩ := ih (i + 1) (hist ++ [(s, p)]) ncc2 hWF'
      refine ⟨(s, p) :: t, ncc3, ?_, by simp [hlen], by
        simpa [List.append_assoc] using hWF2⟩
      rw [fitAux_succ, hstep]
      show fitAux cfg Xe Ye n_folds (i + 1) r' (hist ++ [(s, p)]) ncc2 =
        Except.ok (hist ++ (s, p) :: t, ncc3)
      rw [hrec]
      simp [List.append_assoc]

theorem fitAux_add {α : Type} (cfg : FitConfig α) (Xe Ye : α)
    (n_folds : Option ℕ) :
    ∀ (a b i : ℕ) (hist : List (ℚ × PyDict)) (ncc : ℕ),
      fitAux cfg Xe Ye n_folds i (a + b) hist ncc =
        match fitAux cfg Xe Ye n_folds i a hist ncc with
        | .error e => .error e
        | .ok (h, n) => fitAux cfg Xe Ye n_folds (i + a) b h n := by
  intro a
  induction a with
  | zero =>
      intro b i hist ncc
      rw [Nat.zero_add, fitAux_zero]
      show fitAux cfg Xe Ye n_folds i b hist ncc =
        fitAux cfg Xe Ye n_folds (i + 0) b hist ncc
      rw [Nat.add_zero]
  | succ a' ih =>
      intro b i hist ncc
      rw [Nat.succ_add, fitAux_succ, fitAux_succ]
      cases hs : fitStep cfg Xe Ye n_folds i hist ncc with
      | error e => rfl
      | ok p =>
          obtain ⟨h, n⟩ := p
          show fitAux cfg Xe Ye n_folds (i + 1) (a' + b) h n =
            match fitAux cfg Xe Ye n_folds (i + 1) a' h n with
            | Except.error e => Except.error e
            | Except.ok (h2, n2) => fitAux cfg Xe Ye n_folds (i + (a' + 1)) b h2 n2
          rw [ih b (i + 1) h n]
          cases fitAux cfg Xe Ye n_folds (i + 1) a' h n with
          | error e => rfl
          | ok p2 =>
              obtain ⟨h2, n2⟩ := p2
              show fitAux cfg Xe Ye n_folds (i + 1 + a') b h2 n2 =
                fitAux cfg Xe Ye n_folds (i + (a' + 1)) b h2 n2
              rw [show i + 1 + a' = i + (a' + 1) from by omega]

/-! ### Best-so-far monotonicity -/

theorem foldr_max_mono_acc :
    ∀ (l : List (ℚ × PyDict)) (a b : WithBot ℚ), a ≤ b →
      l.foldr (fun e acc => max (↑e.1) acc) a ≤
        l.foldr (fun e acc => max (↑e.1) acc) b := by
  intro l
  induction l with
  | nil => intro a b hab; simpa using hab
  | cons e tl ih =>
      intro a b hab
      simp only [List.foldr_cons]
      exact max_le_max le_rfl (ih a b hab)

theorem bestSoFar_append_le (h t : List (ℚ × PyDict)) :
    bestSoFar h ≤ bestSoFar (h ++ t) := by
  unfold bestSoFar
  rw [List.foldr_append]
  exact foldr_max_mono_acc h ⊥ _ bot_le

theorem bestSoFar_take_le (L : List (ℚ × PyDict)) (k : ℕ) :
    bestSoFar (L.take k) ≤ bestSoFar L := by
  conv_rhs => rw [← List.take_append_drop k L]
  exact bestSoFar_append_le _ _

theorem bestSoFar_take_mono (h : List (ℚ × PyDict)) (k l : ℕ) (hkl : k ≤ l) :
    bestSoFar (h.take k) ≤ bestSoFar (h.take l) := by
  have : h.take k = (h.take l).take k := by
    rw [List.take_take, min_eq_left hkl]
  rw [this]
  exact bestSoFar_take_le (h.take l) k

theorem take_one_head {β : Type} (h : List β) (e : β) (ht : h.take 1 = [e]) :
    h.head? = some e := by
  cases h with
  | nil => simp at ht
  | cons a t =>
      simp only [List.take_succ_cons, List.take_zero, List.cons.injEq] at ht
      simp [ht.1]

/-- Claim C5: starting from an empty history, `fit` with `n_iters ≥ 1`
performs exactly one append per iteration: it returns normally with a
history of exactly `n_iters` entries, every shorter run produces exactly
the corresponding prefix (the history is append-only, never reordered or
pruned), the best-so-far score over prefixes is monotonically
non-decreasing, and the first entry comes from the iteration-0 proposal
built from the start values without consulting the surrogate. -/
theorem fit_history_growth {α : Type} (cfg : FitConfig α) (Xtr Ytr : α)
    (n_iters : ℕ) (n_folds : Option ℕ)
    (hn1 : 1 ≤ n_iters)
    (hnorm : cfg.normalize = false)
    (hr : 1 ≤ cfg.n_restarts_optimizer)
    (hinit : cfg.initValues.length = cfg.hyperparams.length)
    (hxlen : ∀ i' j sv,
      ((cfg.attemptResult i' j sv).x).length = cfg.hyperparams.length)
    (hcast : ∀ i' j sv, ∃ d,
      buildParams cfg.hyperparams ((cfg.attemptResult i' j sv).x) = .ok d)
    (hrow : ∀ i' j, ∃ row rest,
      startArrAt (gnhConfigAt cfg i') (cfg.randomStarts i') j = row :: rest ∧
      row.length = cfg.hyperparams.length) :
    ∃ h ncc, fit cfg Xtr Ytr none none n_iters n_folds = .ok (h, ncc) ∧
      h.length = n_iters ∧
      (∀ m, m ≤ n_iters → ∃ ncc2,
        fitAux cfg Xtr Ytr n_folds 0 m [] 0 = .ok (h.take m, ncc2)) ∧
      (∀ k l, k ≤ l → bestSoFar (h.take k) ≤ bestSoFar (h.take l)) ∧
      h.head? = some
        (cfg.evalScore
          (pyDictOfList ((cfg.hyperparams.map Param.name).zip cfg.initValues))
          Xtr Ytr n_folds,
         pyDictOfList ((cfg.hyperparams.map Param.name).zip cfg.initValues)) := by
  obtain ⟨t, ncc, hfa, hlen, _⟩ := fitAux_ok cfg Xtr Ytr n_folds hnorm hinit hr
    hxlen hcast hrow n_iters 0 [] 0 (by simp)
  rw [List.nil_append] at hfa
  have hprefix : ∀ m, m ≤ n_iters → ∃ ncc2,
      fitAux cfg Xtr Ytr n_folds 0 m [] 0 = .ok (t.take m, ncc2) := by
    intro m hm
    obtain ⟨tm, nccm, hfam, hlenm, hWFm⟩ := fitAux_ok cfg Xtr Ytr n_folds hnorm
      hinit hr hxlen hcast hrow m 0 [] 0 (by simp)
    rw [List.nil_append] at hfam
    have hsplit := fitAux_add cfg Xtr Ytr n_folds m (n_iters - m) 0 [] 0
    rw [show m + (n_iters - m) = n_iters from by omega] at hsplit
    rw [hfa, hfam] at hsplit
    have hsplit2 : (Except.ok (t, ncc) : Except PyErr (List (ℚ × PyDict) × ℕ)) =
        fitAux cfg Xtr Ytr n_folds (0 + m) (n_iters - m) tm nccm := hsplit
    obtain ⟨t2, ncc3, hfa2, _, _⟩ := fitAux_ok cfg Xtr Ytr n_folds hnorm hinit hr
      hxlen hcast hrow (n_iters - m) (0 + m) tm nccm (by
        intro e he hp hmem
        exact hWFm e (by simpa using he) hp hmem)
    rw [hfa2] at hsplit2
    have ht : t = tm ++ t2 := by
      have := Except.ok.inj hsplit2
      exact congrArg Prod.fst this
    refine ⟨nccm, ?_⟩
    rw [hfam]
    have : t.take m = tm := by
      rw [ht, ← hlenm, List.take_left]
    rw [this]
  have hhead : t.head? = some
      (cfg.evalScore
        (pyDictOfList ((cfg.hyperparams.map Param.name).zip cfg.initValues))
        Xtr Ytr n_folds,
       pyDictOfList ((cfg.hyperparams.map Param.name).zip cfg.initValues)) := by
    obtain ⟨ncc2, h1⟩ := hprefix 1 hn1
    have h2 : fitAux cfg Xtr Ytr n_folds 0 1 [] 0 =
        .ok ([(cfg.evalScore
          (pyDictOfList ((cfg.hyperparams.map Param.name).zip cfg.initValues))
          Xtr Ytr n_folds,
          pyDictOfList ((cfg.hyperparams.map Param.name).zip cfg.initValues))], 0) := rfl
    rw [h2] at h1
    have := Except.ok.inj h1
    have ht1 : t.take 1 =
        [(cfg.evalScore
          (pyDictOfList ((cfg.hyperparams.map Param.name).zip cfg.initValues))
          Xtr Ytr n_folds,
          pyDictOfList ((cfg.hyperparams.map Param.name).zip cfg.initValues))] :=
      (congrArg Prod.fst this).symm
    exact take_one_head t _ ht1
  exact ⟨t, ncc, hfa, hlen, hprefix, fun k l hkl => bestSoFar_take_mono t k l hkl,
    hhead⟩

/-- Witness for C5: one continuous parameter, one restart that always
succeeds, three iterations. -/
theorem fit_history_growth_witness :
    (1 ≤ 3) ∧
    ∃ h ncc, fit
        (⟨[⟨"alpha", "continuous", 0, 1, []⟩], 1, none, false, [Value.float 1],
          fun _ _ => [[Value.float 0]], fun _ _ _ => ⟨true, [Value.float 0]⟩,
          fun _ _ _ _ => 2⟩ : FitConfig Unit) () () none none 3 none =
        .ok (h, ncc) ∧
      h.length = 3 ∧
      (∀ m, m ≤ 3 → ∃ ncc2,
        fitAux (⟨[⟨"alpha", "continuous", 0, 1, []⟩], 1, none, false,
            [Value.float 1], fun _ _ => [[Value.float 0]],
            fun _ _ _ => ⟨true, [Value.float 0]⟩,
            fun _ _ _ _ => 2⟩ : FitConfig Unit) () () none 0 m [] 0 =
          .ok (h.take m, ncc2)) ∧
      (∀ k l, k ≤ l → bestSoFar (h.take k) ≤ bestSoFar (h.take l)) ∧
      h.head? = some (2, [("alpha", Value.float 1)]) :=
  ⟨by decide,
    fit_history_growth
      (⟨[⟨"alpha", "continuous", 0, 1, []⟩], 1, none, false, [Value.float 1],
        fun _ _ => [[Value.float 0]], fun _ _ _ => ⟨true, [Value.float 0]⟩,
        fun _ _ _ _ => 2⟩ : FitConfig Unit) () () 3 none
      (by decide) rfl (by decide) rfl
      (fun _ _ _ => rfl)
      (fun _ _ _ => ⟨[("alpha", Value.float 0)], rfl⟩)
      (fun _ _ => ⟨[Value.float 0], [], rfl, rfl⟩)⟩

/-! ### Expected improvement analysis -/

theorem continuous_normPdf : Continuous normPdf := by
  unfold normPdf
  exact continuous_const.mul
    (Real.continuous_exp.comp (((continuous_pow 2).neg).div_const 2))

theorem normPdf_nonneg (t : ℝ) : 0 ≤ normPdf t :=
  mul_nonneg (inv_nonneg.mpr (Real.sqrt_nonneg _)) (Real.exp_pos _).le

theorem integrable_normPdf : MeasureTheory.Integrable normPdf := by
  have h : normPdf = fun t => (Real.sqrt (2 * Real.pi))⁻¹ *
      Real.exp (-(1 / 2 : ℝ) * t ^ 2) := by
    funext t
    rw [normPdf]
    have harg : -(t ^ 2) / 2 = -(1 / 2 : ℝ) * t ^ 2 := by ring
    rw [harg]
  rw [h]
  exact (integrable_exp_neg_mul_sq (by norm_num)).const_mul _

theorem normCdf_nonneg (x : ℝ) : 0 ≤ normCdf x := by
  unfold normCdf
  exact MeasureTheory.setIntegral_nonneg measurableSet_Iic
    (fun t _ => normPdf_nonneg t)

theorem normCdf_sub (a b : ℝ) :
    normCdf b - normCdf a = ∫ t in a..b, normPdf t := by
  unfold normCdf
  exact intervalIntegral.integral_Iic_sub_Iic integrable_normPdf.integrableOn
    integrable_normPdf.integrableOn

theorem hasDerivAt_normCdf (x : ℝ) : HasDerivAt normCdf (normPdf x) x := by
  have h : normCdf = fun u => normCdf 0 + ∫ t in (0:ℝ)..u, normPdf t := by
    funext u
    rw [← normCdf_sub 0 u]
    ring
  rw [h]
  exact (intervalIntegral.integral_hasDerivAt_right
    integrable_normPdf.intervalIntegrable
    continuous_normPdf.stronglyMeasurable.stronglyMeasurableAtFilter
    continuous_normPdf.continuousAt).const_add (normCdf 0)

theorem hasDerivAt_normPdf (x : ℝ) :
    HasDerivAt normPdf (-x * normPdf x) x := by
  have h1 : HasDerivAt (fun t : ℝ => -(t ^ 2) / 2) (-x) x := by
    have h0 := ((hasDerivAt_pow 2 x).neg).div_const 2
    convert h0 using 1
    simp
    ring
  have h2 := (h1.exp).const_mul ((Real.sqrt (2 * Real.pi))⁻¹)
  have hfun : normPdf = fun t => (Real.sqrt (2 * Real.pi))⁻¹ *
      Real.exp (-(t ^ 2) / 2) := rfl
  rw [hfun]
  convert h2 using 1
  show -x * ((Real.sqrt (2 * Real.pi))⁻¹ * Real.exp (-x ^ 2 / 2)) =
    (Real.sqrt (2 * Real.pi))⁻¹ * (Real.exp (-x ^ 2 / 2) * -x)
  ring

theorem eiAux_monotone : Monotone (fun g : ℝ => g * normCdf g + normPdf g) := by
  have hderiv : ∀ g : ℝ,
      HasDerivAt (fun g : ℝ => g * normCdf g + normPdf g) (normCdf g) g := by
    intro g
    have h1 := (hasDerivAt_id g).mul (hasDerivAt_normCdf g)
    have h2 := h1.add (hasDerivAt_normPdf g)
    convert h2 using 1
    simp only [id_eq]
    ring
  apply monotone_of_deriv_nonneg (fun g => (hderiv g).differentiableAt)
  intro g
  rw [(hderiv g).deriv]
  exact normCdf_nonneg g

/-- Claim C8: for fixed `std > 0` and fixed best observed score, the
expected-improvement value `std * (gamma * Phi(gamma) + phi(gamma))` with
`gamma = (mean - best)/std`, as computed by `expected_improvement`, is
monotonically non-decreasing in the posterior mean. -/
theorem expected_improvement_monotone_in_mean (std best m1 m2 : ℝ)
    (hstd : 0 < std) (hm : m1 ≤ m2) :
    expected_improvement m1 std best ≤ expected_improvement m2 std best := by
  unfold expected_improvement
  rw [if_neg (ne_of_gt hstd), if_neg (ne_of_gt hstd)]
  apply mul_le_mul_of_nonneg_left _ hstd.le
  exact eiAux_monotone ((div_le_div_iff_of_pos_right hstd).mpr (by linarith))

/-- Witness for C8 at `std = 1`, `best = 0`, means 0 and 1. -/
theorem expected_improvement_monotone_in_mean_witness :
    (0:ℝ) < 1 ∧ (0:ℝ) ≤ 1 ∧
    expected_improvement 0 1 0 ≤ expected_improvement 1 1 0 :=
  ⟨one_pos, zero_le_one,
    expected_improvement_monotone_in_mean 1 0 0 1 one_pos zero_le_one⟩

end OptML
